import Mathlib

/-!
Verification of the deployment-verification flow and action layer of
src/src/commands.ts (an Azure Functions editor extension plus its nightly
integration test). The definitions below shallowly embed the code: effects
(output channel, tree refresh, clipboard, delays, HTTP) are tracked in an
explicit state record, failures are `Except` values, and external
collaborators (the UI automation run, the HTTP transport, the retry
combinator library) are abstracted by parameters or modelled from the spec
where their code is not part of the sources.
-/

namespace Commands

/-- Model of the JavaScript `String.prototype.startsWith` check on character
lists: `listStarts s p` is true when `p` is an initial segment of `s`. -/
def listStarts : List Char → List Char → Bool
  | _, [] => true
  | [], _ :: _ => false
  | a :: as, b :: bs => a == b && listStarts as bs

/-- Helper for `jsIncludes`: `p` occurs as a contiguous segment of `s`. -/
def listHasSub : List Char → List Char → Bool
  | [], p => p.isEmpty
  | a :: as, p => listStarts (a :: as) p || listHasSub as p

/-- Model of the JavaScript `String.prototype.includes` used by the retry
classifier at src/src/commands.ts line 267: substring containment, with the
empty pattern contained in every string. -/
def jsIncludes (s pat : String) : Bool :=
  listHasSub s.toList pat.toList

/-- An HTTP request as built at src/src/commands.ts lines 279-281: a URL from
`requestUtils.getDefaultRequest`, a JSON object body with a single field,
and the json-serialization flag. -/
structure Request where
  url : String
  body : Option (String × String)
  json : Bool
deriving DecidableEq

/-- The request `validateFunctionUrl` sends (src/src/commands.ts lines
279-281): the resolved URL with JSON body name/World. -/
def worldRequest (url : String) : Request :=
  { url := url, body := some ("name", "World"), json := true }

/-- Effect trace and mutable environment of one run of `validateFunctionUrl`:
the output-channel log lines, the number of `ext.tree.refresh()` calls, the
number of attempts the retry body has started, the clipboard slot
(`vscode.env.clipboard`), how often the clipboard was read, the sequence of
inter-attempt delays (milliseconds), and the HTTP requests sent. -/
structure VState where
  logs : List String
  refreshCount : Nat
  attempts : Nat
  clipboard : String
  clipboardReads : Nat
  delays : List Nat
  httpRequests : List Request
deriving DecidableEq

/-- Start state of a run: empty trace, clipboard holding arbitrary stale
content `c`. -/
def initWith (c : String) : VState :=
  { logs := [], refreshCount := 0, attempts := 0, clipboard := c,
    clipboardReads := 0, delays := [], httpRequests := [] }

/-- Model of `ext.outputChannel.appendLog`. -/
def appendLog (l : String) (s : VState) : VState :=
  { s with logs := s.logs ++ [l] }

/-- Modelled from the spec: the tree/model refresh collaborator
`ext.tree.refresh()` (extension code not under src/) is asynchronous and
idempotent, re-syncs the tree, and does not touch the clipboard channel; in
the trace it only counts. -/
def treeRefresh (s : VState) : VState :=
  { s with refreshCount := s.refreshCount + 1 }

/-- Model of `vscode.env.clipboard.writeText`. -/
def clipWrite (t : String) (s : VState) : VState :=
  { s with clipboard := t }

/-- Model of `vscode.env.clipboard.readText`, counting the read. -/
def clipRead (s : VState) : VState × String :=
  ({ s with clipboardReads := s.clipboardReads + 1 }, s.clipboard)

/-- Model of `copyFunctionUrl` (src/src/commands.ts lines 240-250). The
scripted UI-automation run (`testUserInput.runWithInputs` around the
`azureFunctions.copyFunctionUrl` command) is abstracted by `env`, indexed by
the attempt number: on success the command leaves the resolved URL on the
clipboard, on failure it raises an error whose message `parseError`
extracts. The function first clears the clipboard. -/
def copyFunctionUrl (env : Nat → Except String String) (k : Nat)
    (s : VState) : VState × Except String Unit :=
  let s1 := clipWrite "" s
  match env k with
  | .ok url => (clipWrite url s1, .ok ())
  | .error msg => (s1, .error msg)

/-- Outcome of one retry-body attempt: a retryable error is rethrown as-is,
any other error becomes a `retry.AbortError` carrying the parsed message. -/
inductive BodyError where
  | retryable (msg : String)
  | abort (msg : String)
deriving DecidableEq

/-- Model of the async retry body of `validateFunctionUrl`
(src/src/commands.ts lines 256-273): log the attempt, refresh the tree on
every attempt but the first, run `copyFunctionUrl`, and classify a failure
as retryable exactly when its message includes the substring "inputs" and
includes the function name; otherwise wrap it in an AbortError. The
`attempts` field counts the attempts started. -/
def attemptBody (functionName : String) (env : Nat → Except String String)
    (retries : Nat) (k : Nat) (s : VState) : VState × Except BodyError Unit :=
  let s1 := appendLog (s!"copyFunctionUrl attempt {k}/{retries + 1}...") s
  let s2 := { s1 with attempts := s1.attempts + 1 }
  let s3 := if k ≠ 1 then treeRefresh s2 else s2
  match copyFunctionUrl env k s3 with
  | (s4, .ok ()) => (s4, .ok ())
  | (s4, .error e) =>
    let message := e
    if jsIncludes message "inputs" && jsIncludes message functionName then
      (s4, .error (.retryable e))
    else
      (s4, .error (.abort message))

/-- Modelled from the spec: the bounded-retry combinator (the `p-retry`
library call at src/src/commands.ts line 255, library code not under src/).
Per the spec it runs the body with a 1-based attempt counter, at most
`retries + 1` times in total: a raised AbortError stops immediately and
surfaces its message; any other raised error is retried after a fixed delay
of `minTimeout` milliseconds while budget remains; once the budget is
exhausted the last error is surfaced. `remaining` is the number of retries
still allowed after the current attempt. -/
def retryGo (body : Nat → VState → VState × Except BodyError Unit)
    (minTimeout : Nat) : Nat → Nat → VState → VState × Except String Unit
  | remaining, k, s =>
    match body k s with
    | (s1, .ok ()) => (s1, .ok ())
    | (s1, .error (.abort m)) => (s1, .error m)
    | (s1, .error (.retryable m)) =>
      match remaining with
      | 0 => (s1, .error m)
      | r + 1 =>
        retryGo body minTimeout r (k + 1)
          { s1 with delays := s1.delays ++ [minTimeout] }

/-- The URL-resolution phase of `validateFunctionUrl`: the retry combinator
applied to the attempt body, starting at attempt 1 with a budget of
`retries` further attempts. -/
def resolveUrlPhase (retries minTimeout : Nat) (functionName : String)
    (env : Nat → Except String String) (s : VState) :
    VState × Except String Unit :=
  retryGo (attemptBody functionName env retries) minTimeout retries 1 s

/-- Model of `validateFunctionUrl` (src/src/commands.ts lines 252-284),
parameterized by the retry configuration: run the resolution phase; on
success read the clipboard once, build the request with JSON body
name/World, send it through the HTTP collaborator `http` (abstracting
`requestUtils.sendRequest`), and assert that the response includes both
"Hello" and "World". -/
def validateFunctionUrlWith (retries minTimeout : Nat)
    (functionName : String) (env : Nat → Except String String)
    (http : Request → String) (s : VState) : VState × Except String Unit :=
  match resolveUrlPhase retries minTimeout functionName env s with
  | (s1, .error m) => (s1, .error m)
  | (s1, .ok ()) =>
    let (s2, functionUrl) := clipRead s1
    let request : Request :=
      { url := functionUrl, body := some ("name", "World"), json := true }
    let s3 := { s2 with httpRequests := s2.httpRequests ++ [request] }
    let response := http request
    if jsIncludes response "Hello" && jsIncludes response "World" then
      (s3, .ok ())
    else
      (s3, .error "Expected function response to include \"Hello\" and \"World\"")

/-- Model of `validateFunctionUrl` at the configuration the source fixes:
`retries = 4` and `minTimeout = 5 * 1000` (src/src/commands.ts lines 254,
274). -/
def validateFunctionUrl (functionName : String)
    (env : Nat → Except String String) (http : Request → String)
    (s : VState) : VState × Except String Unit :=
  validateFunctionUrlWith 4 (5 * 1000) functionName env http s

/-- The retry classifier extracted from src/src/commands.ts line 267: an
error message is retryable when it includes "inputs" and the function
name. -/
def retryableMsg (functionName msg : String) : Bool :=
  jsIncludes msg "inputs" && jsIncludes msg functionName

/-- An attempt both fails and is classified retryable under `env`. -/
def retryableAt (functionName : String) (env : Nat → Except String String)
    (k : Nat) : Bool :=
  match env k with
  | .ok _ => false
  | .error m => retryableMsg functionName m

/-- Presentation options of the scaffolded task (src/src/commands.ts lines
101-104). -/
structure TaskPresentation where
  reveal : String
  panel : String
deriving DecidableEq

/-- One entry of the scaffolded tasks.json (src/src/commands.ts lines
95-106). -/
structure TaskDef where
  taskName : String
  identifier : String
  type : String
  command : String
  group : String
  presentation : TaskPresentation
  isBackground : Bool
deriving DecidableEq

/-- Shape of the scaffolded tasks.json document (src/src/commands.ts lines
92-108). -/
structure TasksJsonFile where
  version : String
  tasks : List TaskDef
deriving DecidableEq

/-- One configuration of the scaffolded launch.json (src/src/commands.ts
lines 115-121). -/
structure LaunchConfiguration where
  name : String
  type : String
  request : String
  port : Nat
  preLaunchTask : String
deriving DecidableEq

/-- Shape of the scaffolded launch.json document (src/src/commands.ts lines
112-123). -/
structure LaunchJsonFile where
  version : String
  configurations : List LaunchConfiguration
deriving DecidableEq

/-- The .vscode folder of the target workspace: presence and content of the
two scaffold files. -/
structure VSCodeDir where
  tasksJson : Option TasksJsonFile
  launchJson : Option LaunchJsonFile
deriving DecidableEq

/-- The task identifier `taskId` of src/src/commands.ts line 91. -/
def taskId : String := "launchFunctionApp"

/-- The tasks.json value built at src/src/commands.ts lines 92-108. -/
def scaffoldTasksJson : TasksJsonFile :=
  { version := "2.0.0",
    tasks := [{ taskName := "Launch Function App",
                identifier := taskId,
                type := "shell",
                command := "func host start",
                group := "none",
                presentation := { reveal := "always", panel := "dedicated" },
                isBackground := true }] }

/-- The launch.json value built at src/src/commands.ts lines 112-123. -/
def scaffoldLaunchJson : LaunchJsonFile :=
  { version := "0.2.0",
    configurations := [{ name := "Attach to Azure Functions",
                         type := "node",
                         request := "attach",
                         port := 5858,
                         preLaunchTask := taskId }] }

/-- Model of the scaffold logic of `createFunctionApp` (src/src/commands.ts
lines 82-125): record whether .vscode/tasks.json and .vscode/launch.json
exist (fs.existsSync, modelled by Option presence), and after the CLI call
write both documents exactly when neither existed. util.writeToFile is
modelled from the spec (repository code not under src/) as storing the
document at its path. The folder-selection prompt and the CLI invocation do
not touch these files and are outside this model. -/
def createFunctionApp (dir : VSCodeDir) : VSCodeDir :=
  let tasksJsonExists := dir.tasksJson.isSome
  let launchJsonExists := dir.launchJson.isSome
  if !tasksJsonExists && !launchJsonExists then
    { dir with tasksJson := some scaffoldTasksJson,
               launchJson := some scaffoldLaunchJson }
  else dir

/-- A Function App tree node, as far as the action layer observes it: its
label. -/
structure FunctionAppNode where
  label : String
deriving DecidableEq

/-- Output channel plus invocation trace of the action layer: the appended
lines and how often each node operation ran. -/
structure ActionLog where
  lines : List String
  startCalls : Nat
  stopCalls : Nat
  restartCalls : Nat
deriving DecidableEq

/-- Model of `outputChannel.appendLine`. -/
def appendLine (l : String) (s : ActionLog) : ActionLog :=
  { s with lines := s.lines ++ [l] }

/-- Model of `startFunctionApp` (src/src/commands.ts lines 133-139): when a
node is given, log the starting line, invoke node.start (external call with
outcome `act`), and log completion on success; with no node, do nothing. -/
def startFunctionApp (act : Except String Unit)
    (node : Option FunctionAppNode) (s : ActionLog) :
    ActionLog × Except String Unit :=
  match node with
  | none => (s, .ok ())
  | some n =>
    let s1 := appendLine (s!"Starting Function App \"{n.label}\"...") s
    let s2 := { s1 with startCalls := s1.startCalls + 1 }
    match act with
    | .error e => (s2, .error e)
    | .ok () =>
      (appendLine (s!"Function App \"{n.label}\" has been started.") s2,
       .ok ())

/-- Model of `stopFunctionApp` (src/src/commands.ts lines 141-147). -/
def stopFunctionApp (act : Except String Unit)
    (node : Option FunctionAppNode) (s : ActionLog) :
    ActionLog × Except String Unit :=
  match node with
  | none => (s, .ok ())
  | some n =>
    let s1 := appendLine (s!"Stopping Function App \"{n.label}\"...") s
    let s2 := { s1 with stopCalls := s1.stopCalls + 1 }
    match act with
    | .error e => (s2, .error e)
    | .ok () =>
      (appendLine (s!"Function App \"{n.label}\" has been stopped.") s2,
       .ok ())

/-- Model of `restartFunctionApp` (src/src/commands.ts lines 149-155). -/
def restartFunctionApp (act : Except String Unit)
    (node : Option FunctionAppNode) (s : ActionLog) :
    ActionLog × Except String Unit :=
  match node with
  | none => (s, .ok ())
  | some n =>
    let s1 := appendLine (s!"Restarting Function App \"{n.label}\"...") s
    let s2 := { s1 with restartCalls := s1.restartCalls + 1 }
    match act with
    | .error e => (s2, .error e)
    | .ok () =>
      (appendLine (s!"Function App \"{n.label}\" has been restarted.") s2,
       .ok ())

/-- Environment of the spec scenario of C2/C3: three attempts failing with
the automation race message, then success. -/
def envRace : Nat → Except String String
  | 1 => .error "Not all inputs were used: funcAB12"
  | 2 => .error "Not all inputs were used: funcAB12"
  | 3 => .error "Not all inputs were used: funcAB12"
  | 4 => .ok "https://appX.azurewebsites.net/api/funcAB12"
  | _ => .ok "unused"

/-- Environment where every attempt fails with a non-retryable message. -/
def envTimeout : Nat → Except String String :=
  fun _ => .error "network timeout"

/-- Environment for the classification witness: a race failure first, then a
non-retryable failure. -/
def envMixed : Nat → Except String String
  | 1 => .error "Not all inputs were used: funcAB12"
  | _ => .error "network timeout"

/-- Distinct retryable message for each attempt. -/
def raceMsg (k : Nat) : String :=
  "Not all inputs were used: funcAB12 v" ++ toString k

/-- Environment where every attempt fails with a distinct retryable
message. -/
def envExhaust : Nat → Except String String :=
  fun k => .error (raceMsg k)

/-- HTTP collaborator answering with a body containing both fragments. -/
def httpHelloWorld : Request → String :=
  fun _ => "Hello, World"

lemma retryableAt_iff (fn : String) (env : Nat → Except String String)
    (k : Nat) :
    retryableAt fn env k = true ↔
      ∃ m, env k = .error m ∧ retryableMsg fn m = true := by
  cases henv : env k <;> simp [retryableAt, henv]

/-- State of the trace right after attempt `k` of the retry body has run and
left `clip` on the clipboard. -/
def afterAttempt (retries k : Nat) (clip : String) (s : VState) : VState :=
  { logs := s.logs ++ [s!"copyFunctionUrl attempt {k}/{retries + 1}..."],
    refreshCount := s.refreshCount + (if k ≠ 1 then 1 else 0),
    attempts := s.attempts + 1,
    clipboard := clip,
    clipboardReads := s.clipboardReads,
    delays := s.delays,
    httpRequests := s.httpRequests }

/-- State extended by one recorded inter-attempt delay. -/
def addDelay (minTimeout : Nat) (s : VState) : VState :=
  { s with delays := s.delays ++ [minTimeout] }

/-- One attempt of the retry body, fully characterized: the log line and the
attempt count are recorded, the tree is refreshed exactly when the attempt
is not the first, the clipboard ends holding the resolved URL on success
and empty on failure, and a failure is rethrown as retryable exactly when
the classifier accepts its message. -/
lemma attemptBody_eq (fn : String) (env : Nat → Except String String)
    (retries k : Nat) (s : VState) :
    attemptBody fn env retries k s =
      (afterAttempt retries k
         (match env k with | .ok u => u | .error _ => "") s,
       (match env k with
        | .ok _ => Except.ok ()
        | .error m =>
          if retryableMsg fn m then Except.error (.retryable m)
          else Except.error (.abort m))) := by
  cases henv : env k with
  | ok u =>
    by_cases hk : k = 1
    · subst hk
      simp [attemptBody, copyFunctionUrl, appendLog, treeRefresh, clipWrite,
        afterAttempt, henv]
    · simp [attemptBody, copyFunctionUrl, appendLog, treeRefresh, clipWrite,
        afterAttempt, henv, hk]
  | error m =>
    by_cases hk : k = 1
    · subst hk
      simp only [attemptBody, copyFunctionUrl, appendLog, treeRefresh,
        clipWrite, retryableMsg, afterAttempt, henv, ne_eq,
        not_true_eq_false, if_false, ite_false]
      split <;> rfl
    · simp only [attemptBody, copyFunctionUrl, appendLog, treeRefresh,
        clipWrite, retryableMsg, afterAttempt, henv, ne_eq, hk,
        not_false_eq_true, if_true, ite_true]
      split <;> rfl

lemma retryGo_ok (fn : String) (env : Nat → Except String String)
    (retries minT r k : Nat) (s : VState) (url : String)
    (henv : env k = .ok url) :
    retryGo (attemptBody fn env retries) minT r k s =
      (afterAttempt retries k url s, .ok ()) := by
  unfold retryGo
  rw [attemptBody_eq]
  simp [henv]

lemma retryGo_abort (fn : String) (env : Nat → Except String String)
    (retries minT r k : Nat) (s : VState) (m : String)
    (henv : env k = .error m) (hm : retryableMsg fn m = false) :
    retryGo (attemptBody fn env retries) minT r k s =
      (afterAttempt retries k "" s, .error m) := by
  unfold retryGo
  rw [attemptBody_eq]
  simp [henv, hm]

lemma retryGo_exhaust0 (fn : String) (env : Nat → Except String String)
    (retries minT k : Nat) (s : VState) (m : String)
    (henv : env k = .error m) (hm : retryableMsg fn m = true) :
    retryGo (attemptBody fn env retries) minT 0 k s =
      (afterAttempt retries k "" s, .error m) := by
  unfold retryGo
  rw [attemptBody_eq]
  simp [henv, hm]

lemma retryGo_retry (fn : String) (env : Nat → Except String String)
    (retries minT r k : Nat) (s : VState) (m : String)
    (henv : env k = .error m) (hm : retryableMsg fn m = true) :
    retryGo (attemptBody fn env retries) minT (r + 1) k s =
      retryGo (attemptBody fn env retries) minT r (k + 1)
        (addDelay minT (afterAttempt retries k "" s)) := by
  conv_lhs => rw [retryGo]
  rw [attemptBody_eq]
  simp [henv, hm, addDelay]

lemma go_success (fn : String) (env : Nat → Except String String)
    (retries minT : Nat) (url : String) :
    ∀ (j r k : Nat) (s : VState), 2 ≤ k → j ≤ r →
      (∀ i, k ≤ i → i < k + j → retryableAt fn env i = true) →
      env (k + j) = .ok url →
      (retryGo (attemptBody fn env retries) minT r k s).2 = .ok () ∧
      (retryGo (attemptBody fn env retries) minT r k s).1.attempts
          = s.attempts + (j + 1) ∧
      (retryGo (attemptBody fn env retries) minT r k s).1.refreshCount
          = s.refreshCount + (j + 1) ∧
      (retryGo (attemptBody fn env retries) minT r k s).1.clipboard = url ∧
      (retryGo (attemptBody fn env retries) minT r k s).1.clipboardReads
          = s.clipboardReads ∧
      (retryGo (attemptBody fn env retries) minT r k s).1.delays
          = s.delays ++ List.replicate j minT ∧
      (retryGo (attemptBody fn env retries) minT r k s).1.httpRequests
          = s.httpRequests := by
  intro j
  induction j with
  | zero =>
    intro r k s hk _ _ hsucc
    have hk1 : k ≠ 1 := by omega
    rw [Nat.add_zero] at hsucc
    rw [retryGo_ok fn env retries minT r k s url hsucc]
    simp [afterAttempt, hk1]
  | succ j ih =>
    intro r k s hk hjr hfail hsucc
    have hk1 : k ≠ 1 := by omega
    have hkfail := hfail k (le_refl k) (by omega)
    obtain ⟨m, henvk, hm⟩ := (retryableAt_iff fn env k).mp hkfail
    obtain ⟨r', rfl⟩ : ∃ r', r = r' + 1 := ⟨r - 1, by omega⟩
    rw [retryGo_retry fn env retries minT r' k s m henvk hm]
    have hsucc' : env (k + 1 + j) = .ok url := by
      have h : k + 1 + j = k + (j + 1) := by omega
      rw [h]; exact hsucc
    have hfail' : ∀ i, k + 1 ≤ i → i < k + 1 + j → retryableAt fn env i = true := by
      intro i h1 h2
      exact hfail i (by omega) (by omega)
    obtain ⟨h1, h2, h3, h4, h5, h6, h7⟩ :=
      ih r' (k + 1) (addDelay minT (afterAttempt retries k "" s))
        (by omega) (by omega) hfail' hsucc'
    refine ⟨h1, ?_, ?_, h4, ?_, ?_, ?_⟩
    · rw [h2]; simp [addDelay, afterAttempt]; omega
    · rw [h3]; simp [addDelay, afterAttempt, hk1]; omega
    · rw [h5]; simp [addDelay, afterAttempt]
    · rw [h6]; simp [addDelay, afterAttempt, List.replicate_succ]
    · rw [h7]; simp [addDelay, afterAttempt]



lemma go_abort (fn : String) (env : Nat → Except String String)
    (retries minT : Nat) (m : String) :
    ∀ (j r k : Nat) (s : VState), 2 ≤ k → j ≤ r →
      (∀ i, k ≤ i → i < k + j → retryableAt fn env i = true) →
      env (k + j) = .error m → retryableMsg fn m = false →
      (retryGo (attemptBody fn env retries) minT r k s).2 = .error m ∧
      (retryGo (attemptBody fn env retries) minT r k s).1.attempts
          = s.attempts + (j + 1) ∧
      (retryGo (attemptBody fn env retries) minT r k s).1.refreshCount
          = s.refreshCount + (j + 1) ∧
      (retryGo (attemptBody fn env retries) minT r k s).1.clipboard = "" ∧
      (retryGo (attemptBody fn env retries) minT r k s).1.clipboardReads
          = s.clipboardReads ∧
      (retryGo (attemptBody fn env retries) minT r k s).1.delays
          = s.delays ++ List.replicate j minT ∧
      (retryGo (attemptBody fn env retries) minT r k s).1.httpRequests
          = s.httpRequests := by
  intro j
  induction j with
  | zero =>
    intro r k s hk _ _ herr hnm
    have hk1 : k ≠ 1 := by omega
    rw [Nat.add_zero] at herr
    rw [retryGo_abort fn env retries minT r k s m herr hnm]
    simp [afterAttempt, hk1]
  | succ j ih =>
    intro r k s hk hjr hfail herr hnm
    have hk1 : k ≠ 1 := by omega
    have hkfail := hfail k (le_refl k) (by omega)
    obtain ⟨m0, henvk, hm0⟩ := (retryableAt_iff fn env k).mp hkfail
    obtain ⟨r', rfl⟩ : ∃ r', r = r' + 1 := ⟨r - 1, by omega⟩
    rw [retryGo_retry fn env retries minT r' k s m0 henvk hm0]
    have herr' : env (k + 1 + j) = .error m := by
      have h : k + 1 + j = k + (j + 1) := by omega
      rw [h]; exact herr
    have hfail' : ∀ i, k + 1 ≤ i → i < k + 1 + j →
        retryableAt fn env i = true := by
      intro i h1 h2
      exact hfail i (by omega) (by omega)
    obtain ⟨h1, h2, h3, h4, h5, h6, h7⟩ :=
      ih r' (k + 1) (addDelay minT (afterAttempt retries k "" s))
        (by omega) (by omega) hfail' herr' hnm
    refine ⟨h1, ?_, ?_, h4, ?_, ?_, ?_⟩
    · rw [h2]; simp [addDelay, afterAttempt]; omega
    · rw [h3]; simp [addDelay, afterAttempt, hk1]; omega
    · rw [h5]; simp [addDelay, afterAttempt]
    · rw [h6]; simp [addDelay, afterAttempt, List.replicate_succ]
    · rw [h7]; simp [addDelay, afterAttempt]

lemma go_exhaust (fn : String) (env : Nat → Except String String)
    (retries minT : Nat) (mfun : Nat → String) :
    ∀ (r k : Nat) (s : VState), 2 ≤ k →
      (∀ i, k ≤ i → i ≤ k + r →
        env i = .error (mfun i) ∧ retryableMsg fn (mfun i) = true) →
      (retryGo (attemptBody fn env retries) minT r k s).2
          = .error (mfun (k + r)) ∧
      (retryGo (attemptBody fn env retries) minT r k s).1.attempts
          = s.attempts + (r + 1) ∧
      (retryGo (attemptBody fn env retries) minT r k s).1.refreshCount
          = s.refreshCount + (r + 1) ∧
      (retryGo (attemptBody fn env retries) minT r k s).1.clipboard = "" ∧
      (retryGo (attemptBody fn env retries) minT r k s).1.clipboardReads
          = s.clipboardReads ∧
      (retryGo (attemptBody fn env retries) minT r k s).1.delays
          = s.delays ++ List.replicate r minT ∧
      (retryGo (attemptBody fn env retries) minT r k s).1.httpRequests
          = s.httpRequests := by
  intro r
  induction r with
  | zero =>
    intro k s hk hall
    have hk1 : k ≠ 1 := by omega
    obtain ⟨henvk, hmk⟩ := hall k (le_refl k) (by omega)
    rw [retryGo_exhaust0 fn env retries minT k s (mfun k) henvk hmk]
    simp [afterAttempt, hk1]
  | succ r ih =>
    intro k s hk hall
    have hk1 : k ≠ 1 := by omega
    obtain ⟨henvk, hmk⟩ := hall k (le_refl k) (by omega)
    rw [retryGo_retry fn env retries minT r k s (mfun k) henvk hmk]
    have hall' : ∀ i, k + 1 ≤ i → i ≤ k + 1 + r →
        env i = .error (mfun i) ∧ retryableMsg fn (mfun i) = true := by
      intro i h1 h2
      exact hall i (by omega) (by omega)
    obtain ⟨h1, h2, h3, h4, h5, h6, h7⟩ :=
      ih (k + 1) (addDelay minT (afterAttempt retries k "" s))
        (by omega) hall'
    have hidx : k + 1 + r = k + (r + 1) := by omega
    rw [hidx] at h1
    refine ⟨h1, ?_, ?_, h4, ?_, ?_, ?_⟩
    · rw [h2]; simp [addDelay, afterAttempt]; omega
    · rw [h3]; simp [addDelay, afterAttempt, hk1]; omega
    · rw [h5]; simp [addDelay, afterAttempt]
    · rw [h6]; simp [addDelay, afterAttempt, List.replicate_succ]
    · rw [h7]; simp [addDelay, afterAttempt]



lemma resolve_success (fn : String) (env : Nat → Except String String)
    (retries minT j : Nat) (url : String) (s : VState)
    (hj : j ≤ retries)
    (hfail : ∀ i, 1 ≤ i → i < 1 + j → retryableAt fn env i = true)
    (hsucc : env (1 + j) = .ok url) :
    (resolveUrlPhase retries minT fn env s).2 = .ok () ∧
    (resolveUrlPhase retries minT fn env s).1.attempts
        = s.attempts + (j + 1) ∧
    (resolveUrlPhase retries minT fn env s).1.refreshCount
        = s.refreshCount + j ∧
    (resolveUrlPhase retries minT fn env s).1.clipboard = url ∧
    (resolveUrlPhase retries minT fn env s).1.clipboardReads
        = s.clipboardReads ∧
    (resolveUrlPhase retries minT fn env s).1.delays
        = s.delays ++ List.replicate j minT ∧
    (resolveUrlPhase retries minT fn env s).1.httpRequests
        = s.httpRequests := by
  unfold resolveUrlPhase
  cases j with
  | zero =>
    rw [Nat.add_zero] at hsucc
    rw [retryGo_ok fn env retries minT retries 1 s url hsucc]
    simp [afterAttempt]
  | succ j =>
    have h1fail := hfail 1 (le_refl 1) (by omega)
    obtain ⟨m, henv1, hm⟩ := (retryableAt_iff fn env 1).mp h1fail
    obtain ⟨R, rfl⟩ : ∃ R, retries = R + 1 := ⟨retries - 1, by omega⟩
    rw [retryGo_retry fn env (R + 1) minT R 1 s m henv1 hm]
    have hsucc' : env (2 + j) = .ok url := by
      have h : 2 + j = 1 + (j + 1) := by omega
      rw [h]; exact hsucc
    have hfail' : ∀ i, 2 ≤ i → i < 2 + j → retryableAt fn env i = true := by
      intro i hi1 hi2
      exact hfail i (by omega) (by omega)
    obtain ⟨h1, h2, h3, h4, h5, h6, h7⟩ :=
      go_success fn env (R + 1) minT url j R 2
        (addDelay minT (afterAttempt (R + 1) 1 "" s))
        (by omega) (by omega) hfail' hsucc'
    refine ⟨h1, ?_, ?_, h4, ?_, ?_, ?_⟩
    · rw [h2]; simp [addDelay, afterAttempt]; try omega
    · rw [h3]; simp [addDelay, afterAttempt]; try omega
    · rw [h5]; simp [addDelay, afterAttempt]
    · rw [h6]; simp [addDelay, afterAttempt, List.replicate_succ]
    · rw [h7]; simp [addDelay, afterAttempt]

lemma resolve_abort (fn : String) (env : Nat → Except String String)
    (retries minT k : Nat) (msg : String) (s : VState)
    (hk1 : 1 ≤ k) (hk2 : k ≤ retries + 1)
    (hprev : ∀ i, 1 ≤ i → i < k → retryableAt fn env i = true)
    (henv : env k = .error msg) (hnm : retryableMsg fn msg = false) :
    (resolveUrlPhase retries minT fn env s).2 = .error msg ∧
    (resolveUrlPhase retries minT fn env s).1.attempts = s.attempts + k ∧
    (resolveUrlPhase retries minT fn env s).1.refreshCount
        = s.refreshCount + (k - 1) ∧
    (resolveUrlPhase retries minT fn env s).1.clipboard = "" ∧
    (resolveUrlPhase retries minT fn env s).1.clipboardReads
        = s.clipboardReads ∧
    (resolveUrlPhase retries minT fn env s).1.delays
        = s.delays ++ List.replicate (k - 1) minT ∧
    (resolveUrlPhase retries minT fn env s).1.httpRequests
        = s.httpRequests := by
  unfold resolveUrlPhase
  match k, hk1 with
  | 1, _ =>
    rw [retryGo_abort fn env retries minT retries 1 s msg henv hnm]
    simp [afterAttempt]
  | (j + 2), _ =>
    have h1fail := hprev 1 (le_refl 1) (by omega)
    obtain ⟨m, henv1, hm⟩ := (retryableAt_iff fn env 1).mp h1fail
    obtain ⟨R, rfl⟩ : ∃ R, retries = R + 1 := ⟨retries - 1, by omega⟩
    rw [retryGo_retry fn env (R + 1) minT R 1 s m henv1 hm]
    have henv' : env (2 + j) = .error msg := by
      have h : 2 + j = j + 2 := by omega
      rw [h]; exact henv
    have hfail' : ∀ i, 2 ≤ i → i < 2 + j → retryableAt fn env i = true := by
      intro i hi1 hi2
      exact hprev i (by omega) (by omega)
    obtain ⟨h1, h2, h3, h4, h5, h6, h7⟩ :=
      go_abort fn env (R + 1) minT msg j R 2
        (addDelay minT (afterAttempt (R + 1) 1 "" s))
        (by omega) (by omega) hfail' henv' hnm
    refine ⟨h1, ?_, ?_, h4, ?_, ?_, ?_⟩
    · rw [h2]; simp [addDelay, afterAttempt]; try omega
    · rw [h3]; simp [addDelay, afterAttempt]; try omega
    · rw [h5]; simp [addDelay, afterAttempt]
    · rw [h6]; simp [addDelay, afterAttempt, List.replicate_succ]
    · rw [h7]; simp [addDelay, afterAttempt]

lemma resolve_exhaust (fn : String) (env : Nat → Except String String)
    (retries minT : Nat) (mfun : Nat → String) (s : VState)
    (hall : ∀ i, 1 ≤ i → i ≤ retries + 1 →
      env i = .error (mfun i) ∧ retryableMsg fn (mfun i) = true) :
    (resolveUrlPhase retries minT fn env s).2
        = .error (mfun (retries + 1)) ∧
    (resolveUrlPhase retries minT fn env s).1.attempts
        = s.attempts + (retries + 1) ∧
    (resolveUrlPhase retries minT fn env s).1.refreshCount
        = s.refreshCount + retries ∧
    (resolveUrlPhase retries minT fn env s).1.clipboard = "" ∧
    (resolveUrlPhase retries minT fn env s).1.clipboardReads
        = s.clipboardReads ∧
    (resolveUrlPhase retries minT fn env s).1.delays
        = s.delays ++ List.replicate retries minT ∧
    (resolveUrlPhase retries minT fn env s).1.httpRequests
        = s.httpRequests := by
  unfold resolveUrlPhase
  cases retries with
  | zero =>
    obtain ⟨henv1, hm1⟩ := hall 1 (le_refl 1) (by omega)
    rw [retryGo_exhaust0 fn env 0 minT 1 s (mfun 1) henv1 hm1]
    simp [afterAttempt]
  | succ R =>
    obtain ⟨henv1, hm1⟩ := hall 1 (le_refl 1) (by omega)
    rw [retryGo_retry fn env (R + 1) minT R 1 s (mfun 1) henv1 hm1]
    have hall' : ∀ i, 2 ≤ i → i ≤ 2 + R →
        env i = .error (mfun i) ∧ retryableMsg fn (mfun i) = true := by
      intro i hi1 hi2
      exact hall i (by omega) (by omega)
    obtain ⟨h1, h2, h3, h4, h5, h6, h7⟩ :=
      go_exhaust fn env (R + 1) minT mfun R 2
        (addDelay minT (afterAttempt (R + 1) 1 "" s)) (by omega) hall'
    have hidx : 2 + R = R + 1 + 1 := by omega
    rw [hidx] at h1
    refine ⟨h1, ?_, ?_, h4, ?_, ?_, ?_⟩
    · rw [h2]; simp [addDelay, afterAttempt]; try omega
    · rw [h3]; simp [addDelay, afterAttempt]; try omega
    · rw [h5]; simp [addDelay, afterAttempt]
    · rw [h6]; simp [addDelay, afterAttempt, List.replicate_succ]
    · rw [h7]; simp [addDelay, afterAttempt]



lemma go_invs (fn : String) (env : Nat → Except String String)
    (retries minT : Nat) :
    ∀ (r k : Nat) (s : VState),
      s.attempts + 1 ≤
        (retryGo (attemptBody fn env retries) minT r k s).1.attempts ∧
      (retryGo (attemptBody fn env retries) minT r k s).1.attempts
          ≤ s.attempts + r + 1 ∧
      (retryGo (attemptBody fn env retries) minT r k s).1.clipboardReads
          = s.clipboardReads ∧
      (retryGo (attemptBody fn env retries) minT r k s).1.httpRequests
          = s.httpRequests ∧
      (retryGo (attemptBody fn env retries) minT r k s).1.delays
          = s.delays ++ List.replicate
              ((retryGo (attemptBody fn env retries) minT r k s).1.attempts
                - s.attempts - 1) minT := by
  intro r
  induction r with
  | zero =>
    intro k s
    cases henv : env k with
    | ok u =>
      rw [retryGo_ok fn env retries minT 0 k s u henv]
      simp [afterAttempt]
    | error m =>
      by_cases hm : retryableMsg fn m
      · rw [retryGo_exhaust0 fn env retries minT k s m henv hm]
        simp [afterAttempt]
      · rw [retryGo_abort fn env retries minT 0 k s m henv
          (by simpa using hm)]
        simp [afterAttempt]
  | succ r ih =>
    intro k s
    cases henv : env k with
    | ok u =>
      rw [retryGo_ok fn env retries minT (r + 1) k s u henv]
      simp [afterAttempt]
    | error m =>
      by_cases hm : retryableMsg fn m
      · rw [retryGo_retry fn env retries minT r k s m henv hm]
        obtain ⟨i1, i2, i3, i4, i5⟩ :=
          ih (k + 1) (addDelay minT (afterAttempt retries k "" s))
        have hs' : (addDelay minT (afterAttempt retries k "" s)).attempts
            = s.attempts + 1 := by simp [addDelay, afterAttempt]
        refine ⟨by omega, by omega, ?_, ?_, ?_⟩
        · rw [i3]; simp [addDelay, afterAttempt]
        · rw [i4]; simp [addDelay, afterAttempt]
        · rw [i5, hs']
          have hd : (addDelay minT (afterAttempt retries k "" s)).delays
              = s.delays ++ [minT] := by simp [addDelay, afterAttempt]
          rw [hd]
          rw [hs'] at i1
          have hn : (retryGo (attemptBody fn env retries) minT r (k + 1)
              (addDelay minT (afterAttempt retries k "" s))).1.attempts
                - s.attempts - 1
              = ((retryGo (attemptBody fn env retries) minT r (k + 1)
                  (addDelay minT (afterAttempt retries k "" s))).1.attempts
                  - (s.attempts + 1) - 1) + 1 := by omega
          rw [hn, List.replicate_succ, List.append_assoc,
            List.singleton_append]
      · rw [retryGo_abort fn env retries minT (r + 1) k s m henv
          (by simpa using hm)]
        simp [afterAttempt]

lemma go_noSuccess (fn : String) (env : Nat → Except String String)
    (retries minT : Nat)
    (henv : ∀ i, ∃ m, env i = .error m) :
    ∀ (r k : Nat) (s : VState),
      ∃ m, (retryGo (attemptBody fn env retries) minT r k s).2
        = .error m := by
  intro r
  induction r with
  | zero =>
    intro k s
    obtain ⟨m, hm⟩ := henv k
    by_cases hc : retryableMsg fn m
    · exact ⟨m, by rw [retryGo_exhaust0 fn env retries minT k s m hm hc]⟩
    · exact ⟨m, by rw [retryGo_abort fn env retries minT 0 k s m hm
        (by simpa using hc)]⟩
  | succ r ih =>
    intro k s
    obtain ⟨m, hm⟩ := henv k
    by_cases hc : retryableMsg fn m
    · rw [retryGo_retry fn env retries minT r k s m hm hc]
      exact ih (k + 1) _
    · exact ⟨m, by rw [retryGo_abort fn env retries minT (r + 1) k s m hm
        (by simpa using hc)]⟩



lemma validate_of_error (retries minT : Nat) (fn : String)
    (env : Nat → Except String String) (http : Request → String)
    (s : VState) (m : String)
    (h2 : (resolveUrlPhase retries minT fn env s).2 = .error m) :
    validateFunctionUrlWith retries minT fn env http s
      = ((resolveUrlPhase retries minT fn env s).1, .error m) := by
  unfold validateFunctionUrlWith
  cases hres : resolveUrlPhase retries minT fn env s with
  | mk s1 r =>
    rw [hres] at h2
    simp only at h2
    subst h2
    rfl

lemma validate_of_ok (retries minT : Nat) (fn : String)
    (env : Nat → Except String String) (http : Request → String)
    (s : VState)
    (h2 : (resolveUrlPhase retries minT fn env s).2 = .ok ()) :
    validateFunctionUrlWith retries minT fn env http s =
      (let s1 := (resolveUrlPhase retries minT fn env s).1
       let req : Request := { url := s1.clipboard,
                              body := some ("name", "World"), json := true }
       let s2 : VState := { s1 with clipboardReads := s1.clipboardReads + 1 }
       let s3 : VState := { s2 with httpRequests := s2.httpRequests ++ [req] }
       (s3,
        if jsIncludes (http req) "Hello" && jsIncludes (http req) "World"
        then .ok ()
        else .error "Expected function response to include \"Hello\" and \"World\"")) := by
  unfold validateFunctionUrlWith
  cases hres : resolveUrlPhase retries minT fn env s with
  | mk s1 r =>
    rw [hres] at h2
    simp only at h2
    subst h2
    simp only [clipRead]
    split <;> rfl

lemma validate_counts (retries minT : Nat) (fn : String)
    (env : Nat → Except String String) (http : Request → String)
    (s : VState) :
    (validateFunctionUrlWith retries minT fn env http s).1.attempts
        = (resolveUrlPhase retries minT fn env s).1.attempts ∧
    (validateFunctionUrlWith retries minT fn env http s).1.refreshCount
        = (resolveUrlPhase retries minT fn env s).1.refreshCount ∧
    (validateFunctionUrlWith retries minT fn env http s).1.delays
        = (resolveUrlPhase retries minT fn env s).1.delays ∧
    (validateFunctionUrlWith retries minT fn env http s).1.clipboardReads
        = (resolveUrlPhase retries minT fn env s).1.clipboardReads
          + (match (resolveUrlPhase retries minT fn env s).2 with
             | .ok _ => 1
             | .error _ => 0) := by
  cases h2 : (resolveUrlPhase retries minT fn env s).2 with
  | ok u =>
    cases u
    rw [validate_of_ok retries minT fn env http s h2]
    simp [h2]
  | error m =>
    rw [validate_of_error retries minT fn env http s m h2]
    simp [h2]

lemma resolve_reach (fn : String) (env : Nat → Except String String)
    (retries minT : Nat) (s : VState) :
    ∀ d, d ≤ retries →
      (∀ i, 1 ≤ i → i < d + 1 → retryableAt fn env i = true) →
      ∃ s', resolveUrlPhase retries minT fn env s
          = retryGo (attemptBody fn env retries) minT (retries - d) (d + 1) s'
        ∧ s'.attempts = s.attempts + d := by
  intro d
  induction d with
  | zero =>
    intro _ _
    exact ⟨s, by simp [resolveUrlPhase], by simp⟩
  | succ d ih =>
    intro hd hprev
    obtain ⟨s', heq, hatt⟩ :=
      ih (by omega) (fun i h1 h2 => hprev i h1 (by omega))
    obtain ⟨m, henv, hm⟩ := (retryableAt_iff fn env (d + 1)).mp
      (hprev (d + 1) (by omega) (by omega))
    have hb : retries - d = (retries - (d + 1)) + 1 := by omega
    refine ⟨addDelay minT (afterAttempt retries (d + 1) "" s'), ?_, ?_⟩
    · rw [heq, hb,
        retryGo_retry fn env retries minT (retries - (d + 1)) (d + 1) s' m
          henv hm]
    · simp [addDelay, afterAttempt]
      omega

/-- C1: for every configured retry count N (the source default is N = 4),
the deployment-verification flow makes at most N + 1 resolution attempts,
the attempt counter never exceeds N + 1, and when every attempt fails the
flow terminates with an error rather than returning success. -/
theorem validateFunctionUrl_attempt_budget (retries minT : Nat)
    (fn c : String) (env : Nat → Except String String)
    (http : Request → String) :
    (validateFunctionUrlWith retries minT fn env http
      (initWith c)).1.attempts ≤ retries + 1 ∧
    (validateFunctionUrl fn env http (initWith c)).1.attempts ≤ 4 + 1 ∧
    ((∀ i, ∃ m, env i = .error m) →
      ∃ m, (validateFunctionUrlWith retries minT fn env http
        (initWith c)).2 = .error m) := by
  have hmain : ∀ R M : Nat,
      (validateFunctionUrlWith R M fn env http (initWith c)).1.attempts
        ≤ R + 1 := by
    intro R M
    have h := (validate_counts R M fn env http (initWith c)).1
    have h2 : (resolveUrlPhase R M fn env (initWith c)).1.attempts
        ≤ (initWith c).attempts + R + 1 := by
      simpa [resolveUrlPhase] using (go_invs fn env R M R 1 (initWith c)).2.1
    have h0 : (initWith c).attempts = 0 := by simp [initWith]
    omega
  refine ⟨hmain retries minT, ?_, ?_⟩
  · simpa [validateFunctionUrl] using hmain 4 (5 * 1000)
  · intro henv
    obtain ⟨m, hm⟩ :=
      go_noSuccess fn env retries minT henv retries 1 (initWith c)
    have hres : (resolveUrlPhase retries minT fn env (initWith c)).2
        = .error m := by
      simpa [resolveUrlPhase] using hm
    exact ⟨m, by
      rw [validate_of_error retries minT fn env http (initWith c) m hres]⟩

theorem validateFunctionUrl_attempt_budget_witness :
    (validateFunctionUrlWith 4 5000 "funcAB12" envTimeout httpHelloWorld
      (initWith "")).1.attempts ≤ 4 + 1 ∧
    ∃ m, (validateFunctionUrlWith 4 5000 "funcAB12" envTimeout httpHelloWorld
      (initWith "")).2 = .error m :=
  ⟨(validateFunctionUrl_attempt_budget 4 5000 "funcAB12" "" envTimeout
      httpHelloWorld).1,
   (validateFunctionUrl_attempt_budget 4 5000 "funcAB12" "" envTimeout
      httpHelloWorld).2.2 (fun _ => ⟨"network timeout", rfl⟩)⟩

/-- C2: when attempts 1..j each raise a retryable race error and attempt
j + 1 succeeds (j within the retry budget), the resolution flow succeeds
after exactly j + 1 attempts and performs exactly j tree refreshes — one
before every attempt except the first and none before the first. -/
theorem resolveUrl_retry_then_success (retries minT j : Nat)
    (fn url c : String) (env : Nat → Except String String)
    (hj : j ≤ retries)
    (hfail : ∀ i, 1 ≤ i → i < 1 + j → retryableAt fn env i = true)
    (hsucc : env (1 + j) = .ok url) :
    (resolveUrlPhase retries minT fn env (initWith c)).2 = .ok () ∧
    (resolveUrlPhase retries minT fn env (initWith c)).1.attempts
        = j + 1 ∧
    (resolveUrlPhase retries minT fn env (initWith c)).1.refreshCount
        = j := by
  obtain ⟨h1, h2, h3, _⟩ :=
    resolve_success fn env retries minT j url (initWith c) hj hfail hsucc
  refine ⟨h1, ?_, ?_⟩
  · rw [h2]; simp [initWith]
  · rw [h3]; simp [initWith]

theorem resolveUrl_retry_then_success_witness :
    (resolveUrlPhase 4 5000 "funcAB12" envRace (initWith "")).2 = .ok () ∧
    (resolveUrlPhase 4 5000 "funcAB12" envRace (initWith "")).1.attempts
        = 3 + 1 ∧
    (resolveUrlPhase 4 5000 "funcAB12" envRace (initWith "")).1.refreshCount
        = 3 :=
  resolveUrl_retry_then_success 4 5000 3 "funcAB12"
    "https://appX.azurewebsites.net/api/funcAB12" "" envRace
    (by omega)
    (by intro i h1 h2; interval_cases i <;> decide)
    rfl



/-- C3: an error raised by a resolution attempt is classified retryable —
the loop proceeding to a further attempt — exactly when its message
includes the substring "inputs" (the unused scripted input indication) and
mentions the function name; any other error aborts the loop on that
attempt and is propagated with its message. -/
theorem validateFunctionUrl_error_classification (retries minT k : Nat)
    (fn msg c : String) (env : Nat → Except String String)
    (http : Request → String)
    (hk1 : 1 ≤ k) (hk2 : k ≤ retries)
    (hprev : ∀ i, 1 ≤ i → i < k → retryableAt fn env i = true)
    (henv : env k = .error msg) :
    ((retryableMsg fn msg = true) ↔
      k + 1 ≤ (validateFunctionUrlWith retries minT fn env http
        (initWith c)).1.attempts) ∧
    (retryableMsg fn msg = false →
      (validateFunctionUrlWith retries minT fn env http
        (initWith c)).2 = .error msg ∧
      (validateFunctionUrlWith retries minT fn env http
        (initWith c)).1.attempts = k) := by
  have habort : retryableMsg fn msg = false →
      (validateFunctionUrlWith retries minT fn env http
        (initWith c)).2 = .error msg ∧
      (validateFunctionUrlWith retries minT fn env http
        (initWith c)).1.attempts = k := by
    intro hnm
    obtain ⟨h1, h2, _, _, _, _, _⟩ :=
      resolve_abort fn env retries minT k msg (initWith c) hk1 (by omega)
        hprev henv hnm
    have hv := validate_of_error retries minT fn env http (initWith c)
      msg h1
    rw [hv]
    refine ⟨rfl, ?_⟩
    rw [h2]; simp [initWith]
  refine ⟨⟨?_, ?_⟩, habort⟩
  · intro hr
    obtain ⟨s', heq, hatt⟩ :=
      resolve_reach fn env retries minT (initWith c) (k - 1) (by omega)
        (by intro i h1 h2; exact hprev i h1 (by omega))
    have hk : k - 1 + 1 = k := by omega
    rw [hk] at heq
    have hb : retries - (k - 1) = (retries - k) + 1 := by omega
    rw [hb] at heq
    rw [retryGo_retry fn env retries minT (retries - k) k s' msg henv hr]
      at heq
    have hlb := (go_invs fn env retries minT (retries - k) (k + 1)
      (addDelay minT (afterAttempt retries k "" s'))).1
    have hs2 : (addDelay minT (afterAttempt retries k "" s')).attempts
        = s'.attempts + 1 := by simp [addDelay, afterAttempt]
    have hcnt := (validate_counts retries minT fn env http (initWith c)).1
    rw [hcnt, heq]
    have h0 : (initWith c).attempts = 0 := by simp [initWith]
    omega
  · intro hge
    by_contra hne
    have hnm : retryableMsg fn msg = false := by
      cases hx : retryableMsg fn msg
      · rfl
      · exact absurd hx hne
    obtain ⟨_, h2⟩ := habort hnm
    omega

theorem validateFunctionUrl_error_classification_witness :
    ((retryableMsg "funcAB12" "network timeout" = true) ↔
      2 + 1 ≤ (validateFunctionUrlWith 4 5000 "funcAB12" envMixed
        httpHelloWorld (initWith "")).1.attempts) ∧
    (retryableMsg "funcAB12" "network timeout" = false →
      (validateFunctionUrlWith 4 5000 "funcAB12" envMixed httpHelloWorld
        (initWith "")).2 = .error "network timeout" ∧
      (validateFunctionUrlWith 4 5000 "funcAB12" envMixed httpHelloWorld
        (initWith "")).1.attempts = 2) :=
  validateFunctionUrl_error_classification 4 5000 2 "funcAB12"
    "network timeout" "" envMixed httpHelloWorld (by omega) (by omega)
    (by intro i h1 h2; interval_cases i; decide)
    rfl

/-- C4: a non-retryable error raised at attempt k aborts the flow at that
attempt: no further attempt is made, the error message is surfaced
unmodified, exactly k - 1 refreshes were issued (zero when k = 1), and no
HTTP request is sent. -/
theorem validateFunctionUrl_nonretryable_aborts (retries minT k : Nat)
    (fn msg c : String) (env : Nat → Except String String)
    (http : Request → String)
    (hk1 : 1 ≤ k) (hk2 : k ≤ retries + 1)
    (hprev : ∀ i, 1 ≤ i → i < k → retryableAt fn env i = true)
    (henv : env k = .error msg)
    (hnm : retryableMsg fn msg = false) :
    (validateFunctionUrlWith retries minT fn env http
      (initWith c)).2 = .error msg ∧
    (validateFunctionUrlWith retries minT fn env http
      (initWith c)).1.attempts = k ∧
    (validateFunctionUrlWith retries minT fn env http
      (initWith c)).1.refreshCount = k - 1 ∧
    (validateFunctionUrlWith retries minT fn env http
      (initWith c)).1.httpRequests = [] := by
  obtain ⟨h1, h2, h3, _, _, _, h7⟩ :=
    resolve_abort fn env retries minT k msg (initWith c) hk1 hk2 hprev
      henv hnm
  have hv := validate_of_error retries minT fn env http (initWith c) msg h1
  rw [hv]
  refine ⟨rfl, ?_, ?_, ?_⟩
  · rw [h2]; simp [initWith]
  · rw [h3]; simp [initWith]
  · rw [h7]; simp [initWith]

theorem validateFunctionUrl_nonretryable_aborts_witness :
    (validateFunctionUrlWith 4 5000 "funcAB12" envTimeout httpHelloWorld
      (initWith "")).2 = .error "network timeout" ∧
    (validateFunctionUrlWith 4 5000 "funcAB12" envTimeout httpHelloWorld
      (initWith "")).1.attempts = 1 ∧
    (validateFunctionUrlWith 4 5000 "funcAB12" envTimeout httpHelloWorld
      (initWith "")).1.refreshCount = 1 - 1 ∧
    (validateFunctionUrlWith 4 5000 "funcAB12" envTimeout httpHelloWorld
      (initWith "")).1.httpRequests = [] :=
  validateFunctionUrl_nonretryable_aborts 4 5000 1 "funcAB12"
    "network timeout" "" envTimeout httpHelloWorld (by omega) (by omega)
    (by intro i h1 h2; omega)
    rfl
    (by decide)

/-- C5: when every one of the retries + 1 attempts raises a retryable
error, the flow fails and the surfaced error equals the error of the last
attempt. -/
theorem validateFunctionUrl_exhaustion_last_error (retries minT : Nat)
    (fn c : String) (env : Nat → Except String String)
    (http : Request → String) (mfun : Nat → String)
    (hall : ∀ i, 1 ≤ i → i ≤ retries + 1 →
      env i = .error (mfun i) ∧ retryableMsg fn (mfun i) = true) :
    (validateFunctionUrlWith retries minT fn env http
      (initWith c)).2 = .error (mfun (retries + 1)) ∧
    (validateFunctionUrlWith retries minT fn env http
      (initWith c)).1.attempts = retries + 1 := by
  obtain ⟨h1, h2, _⟩ :=
    resolve_exhaust fn env retries minT mfun (initWith c) hall
  have hv := validate_of_error retries minT fn env http (initWith c)
    (mfun (retries + 1)) h1
  rw [hv]
  refine ⟨rfl, ?_⟩
  rw [h2]; simp [initWith]

theorem validateFunctionUrl_exhaustion_last_error_witness :
    (validateFunctionUrlWith 1 5000 "funcAB12" envExhaust httpHelloWorld
      (initWith "")).2 = .error (raceMsg (1 + 1)) ∧
    (validateFunctionUrlWith 1 5000 "funcAB12" envExhaust httpHelloWorld
      (initWith "")).1.attempts = 1 + 1 :=
  validateFunctionUrl_exhaustion_last_error 1 5000 "funcAB12" "" envExhaust
    httpHelloWorld raceMsg
    (by intro i h1 h2; interval_cases i <;> exact ⟨rfl, by decide⟩)

/-- C6: after a successful resolution the flow issues exactly one HTTP
request, addressed to the resolved URL with JSON body name/World, and
validation passes exactly when the response body includes both "Hello" and
"World"; the final check is not retried — the attempt count stays at j + 1
whatever the response. -/
theorem validateFunctionUrl_http_check (retries minT j : Nat)
    (fn url c : String) (env : Nat → Except String String)
    (http : Request → String)
    (hj : j ≤ retries)
    (hfail : ∀ i, 1 ≤ i → i < 1 + j → retryableAt fn env i = true)
    (hsucc : env (1 + j) = .ok url) :
    (validateFunctionUrlWith retries minT fn env http
      (initWith c)).1.httpRequests = [worldRequest url] ∧
    ((validateFunctionUrlWith retries minT fn env http
      (initWith c)).2 = .ok () ↔
      (jsIncludes (http (worldRequest url)) "Hello"
        && jsIncludes (http (worldRequest url)) "World") = true) ∧
    (validateFunctionUrlWith retries minT fn env http
      (initWith c)).1.attempts = j + 1 := by
  obtain ⟨h1, h2, _, h4, _, _, h7⟩ :=
    resolve_success fn env retries minT j url (initWith c) hj hfail hsucc
  have h0 : (initWith c).httpRequests = [] := rfl
  rw [h0] at h7
  have hv := validate_of_ok retries minT fn env http (initWith c) h1
  rw [hv]
  simp only [h4, h7, worldRequest]
  refine ⟨by simp, ?_, ?_⟩
  · dsimp only
    split
    next hcond => simp [hcond]
    next hcond => exact iff_of_false (by simp) hcond
  · dsimp only
    rw [h2]
    simp [initWith]

theorem validateFunctionUrl_http_check_witness :
    (validateFunctionUrlWith 4 5000 "funcAB12" envRace httpHelloWorld
      (initWith "")).1.httpRequests
        = [worldRequest "https://appX.azurewebsites.net/api/funcAB12"] ∧
    ((validateFunctionUrlWith 4 5000 "funcAB12" envRace httpHelloWorld
      (initWith "")).2 = .ok () ↔
      (jsIncludes (httpHelloWorld (worldRequest
          "https://appX.azurewebsites.net/api/funcAB12")) "Hello"
        && jsIncludes (httpHelloWorld (worldRequest
          "https://appX.azurewebsites.net/api/funcAB12")) "World")
        = true) ∧
    (validateFunctionUrlWith 4 5000 "funcAB12" envRace httpHelloWorld
      (initWith "")).1.attempts = 3 + 1 :=
  validateFunctionUrl_http_check 4 5000 3 "funcAB12"
    "https://appX.azurewebsites.net/api/funcAB12" "" envRace httpHelloWorld
    (by omega)
    (by intro i h1 h2; interval_cases i <;> decide)
    rfl

/-- C7: the scaffold files are written exactly when neither pre-exists:
from a folder holding neither file, both documents are created — tasks.json
with version 2.0.0 and a single background shell task "Launch Function App"
identified by launchFunctionApp, launch.json with version 0.2.0 and a
single attach configuration on port 5858 whose preLaunchTask is that
identifier — and when either file pre-exists the folder is left entirely
unchanged. -/
theorem createFunctionApp_scaffold (dir : VSCodeDir) :
    ((dir.tasksJson = none ∧ dir.launchJson = none) →
      createFunctionApp dir
        = { tasksJson := some scaffoldTasksJson,
            launchJson := some scaffoldLaunchJson }) ∧
    (¬(dir.tasksJson = none ∧ dir.launchJson = none) →
      createFunctionApp dir = dir) ∧
    scaffoldTasksJson.version = "2.0.0" ∧
    scaffoldTasksJson.tasks.map TaskDef.taskName = ["Launch Function App"] ∧
    scaffoldTasksJson.tasks.map TaskDef.identifier = [taskId] ∧
    scaffoldTasksJson.tasks.map TaskDef.type = ["shell"] ∧
    scaffoldTasksJson.tasks.map TaskDef.isBackground = [true] ∧
    scaffoldLaunchJson.version = "0.2.0" ∧
    scaffoldLaunchJson.configurations.map LaunchConfiguration.request
        = ["attach"] ∧
    scaffoldLaunchJson.configurations.map LaunchConfiguration.port
        = [5858] ∧
    scaffoldLaunchJson.configurations.map
        LaunchConfiguration.preLaunchTask = [taskId] := by
  cases dir with
  | mk t l =>
    refine ⟨?_, ?_, rfl, rfl, rfl, rfl, rfl, rfl, rfl, rfl, rfl⟩
    · rintro ⟨ht, hl⟩
      subst ht; subst hl
      rfl
    · intro hne
      cases t with
      | none =>
        cases l with
        | none => exact absurd ⟨rfl, rfl⟩ hne
        | some lv => rfl
      | some tv => cases l <;> rfl

theorem createFunctionApp_scaffold_witness :
    createFunctionApp { tasksJson := none, launchJson := none }
        = { tasksJson := some scaffoldTasksJson,
            launchJson := some scaffoldLaunchJson } ∧
    createFunctionApp { tasksJson := some scaffoldTasksJson, launchJson := none }
      = { tasksJson := some scaffoldTasksJson, launchJson := none } :=
  ⟨(createFunctionApp_scaffold _).1 ⟨rfl, rfl⟩,
   (createFunctionApp_scaffold _).2.1 (by simp)⟩

/-- C8: clipboard policy — the refresh collaborator and logging never change
the channel, each copy attempt clears it before acting so that afterwards
it holds exactly the resolved URL on success and is empty on failure
(whatever it held before), and the flow reads the channel exactly once
after a successful resolution and never on failure. -/
theorem clipboard_channel_policy :
    (∀ s : VState, (treeRefresh s).clipboard = s.clipboard) ∧
    (∀ (l : String) (s : VState), (appendLog l s).clipboard = s.clipboard) ∧
    (∀ (env : Nat → Except String String) (k : Nat) (s : VState),
      (copyFunctionUrl env k s).1.clipboard
        = match env k with | .ok u => u | .error _ => "") ∧
    (∀ (retries minT : Nat) (fn c : String)
       (env : Nat → Except String String) (http : Request → String),
      (validateFunctionUrlWith retries minT fn env http
        (initWith c)).1.clipboardReads
        = match (resolveUrlPhase retries minT fn env (initWith c)).2 with
          | .ok _ => 1
          | .error _ => 0) := by
  refine ⟨fun s => rfl, fun l s => rfl, ?_, ?_⟩
  · intro env k s
    cases henv : env k <;> simp [copyFunctionUrl, clipWrite, henv]
  · intro retries minT fn c env http
    have h := (validate_counts retries minT fn env http (initWith c)).2.2.2
    have hreads : (resolveUrlPhase retries minT fn env
        (initWith c)).1.clipboardReads = 0 := by
      simpa [resolveUrlPhase, initWith] using
        (go_invs fn env retries minT retries 1 (initWith c)).2.2.1
    rw [h, hreads]
    exact Nat.zero_add _

/-- C9: the delay between a retryable failure and the next attempt is the
constant minTimeout for every pair of consecutive attempts — a run records
attempts − 1 identical copies of it — and at the source configuration that
constant is 5000 ms. -/
theorem retry_delay_fixed :
    (∀ (retries minT : Nat) (fn c : String)
       (env : Nat → Except String String) (http : Request → String),
      (validateFunctionUrlWith retries minT fn env http
        (initWith c)).1.delays
        = List.replicate
            ((validateFunctionUrlWith retries minT fn env http
              (initWith c)).1.attempts - 1) minT) ∧
    (∀ (fn c : String) (env : Nat → Except String String)
       (http : Request → String),
      (validateFunctionUrl fn env http (initWith c)).1.delays
        = List.replicate
            ((validateFunctionUrl fn env http (initWith c)).1.attempts - 1)
            5000) := by
  have hmain : ∀ (retries minT : Nat) (fn c : String)
      (env : Nat → Except String String) (http : Request → String),
      (validateFunctionUrlWith retries minT fn env http
        (initWith c)).1.delays
        = List.replicate
            ((validateFunctionUrlWith retries minT fn env http
              (initWith c)).1.attempts - 1) minT := by
    intro retries minT fn c env http
    obtain ⟨ha, _, hd, _⟩ := validate_counts retries minT fn env http
      (initWith c)
    obtain ⟨_, _, _, _, hinv⟩ :=
      go_invs fn env retries minT retries 1 (initWith c)
    rw [ha, hd]
    have hres : (resolveUrlPhase retries minT fn env (initWith c)).1.delays
        = (initWith c).delays ++ List.replicate
            ((resolveUrlPhase retries minT fn env
              (initWith c)).1.attempts - (initWith c).attempts - 1) minT := by
      simpa [resolveUrlPhase] using hinv
    rw [hres]
    simp [initWith]
  exact ⟨hmain, fun fn c env http => hmain 4 (5 * 1000) fn c env http⟩

/-- C10: invoking startFunctionApp, stopFunctionApp or restartFunctionApp
with no node is a no-op: nothing is appended to the output channel, no node
operation is invoked, and no error is raised. -/
theorem app_actions_noop_without_node (act : Except String Unit)
    (s : ActionLog) :
    startFunctionApp act none s = (s, .ok ()) ∧
    stopFunctionApp act none s = (s, .ok ()) ∧
    restartFunctionApp act none s = (s, .ok ()) :=
  ⟨rfl, rfl, rfl⟩

end Commands
